import Mathlib

/-
Verification of the Adafruit_MonoOLED driver core
(src/Adafruit_MonoOLED.cpp) against its specification.

The embedding models:
  * the packed monochrome framebuffer and its rotation-aware pixel
    set / clear / invert / read operations (drawPixel, getPixel,
    clearDisplay);
  * the bring-up routine _init as a function producing a return value
    and a trace of GPIO / timing events;
  * the multi-command dispatch oled_commandList as a function producing
    a return value and a trace of transport events.

Machine integers are modelled as Int (for int16_t coordinates; all
arithmetic performed by the code on in-bounds coordinates stays far
inside the int16_t range, so Int agrees with the C semantics) and Nat
(for byte values, kept < 256 by the framebuffer invariant).
-/

namespace MonoOLED

/-- Physical (unrotated) geometry of the display: the WIDTH and HEIGHT
members inherited from Adafruit_GFX, fixed at construction. -/
structure Geometry where
  WIDTH : Nat
  HEIGHT : Nat

/-- The framebuffer, viewed as the byte stored at each index.  The C
buffer is `uint8_t *`; byte values are kept below 256 as a hypothesis
where it matters. -/
abbrev Buffer := Nat → Nat

/-- Color value MONOOLED_BLACK (pixel off). -/
def MONOOLED_BLACK : Nat := 0

/-- Color value MONOOLED_WHITE (pixel on). -/
def MONOOLED_WHITE : Nat := 1

/-- Color value MONOOLED_INVERSE (toggle pixel). -/
def MONOOLED_INVERSE : Nat := 2

/-- Modelled from the spec: `width()` supplied by the graphics-primitive
base (Adafruit_GFX, not under src/): the logical, post-rotation width —
the physical HEIGHT for rotations 1 and 3, the physical WIDTH
otherwise. -/
def width (g : Geometry) (r : Fin 4) : Int :=
  if r.val = 1 ∨ r.val = 3 then (g.HEIGHT : Int) else (g.WIDTH : Int)

/-- Modelled from the spec: `height()` supplied by the graphics-primitive
base: the logical, post-rotation height. -/
def height (g : Geometry) (r : Fin 4) : Int :=
  if r.val = 1 ∨ r.val = 3 then (g.WIDTH : Int) else (g.HEIGHT : Int)

/-- The coordinate rotation performed by the `switch (getRotation())`
block shared by drawPixel and getPixel: case 1 swaps x and y then sets
x = WIDTH - x - 1; case 2 reflects both axes; case 3 swaps then sets
y = HEIGHT - y - 1; the default (rotation 0) is the identity. -/
def transform (g : Geometry) (r : Fin 4) (x y : Int) : Int × Int :=
  match r.val with
  | 1 => ((g.WIDTH : Int) - y - 1, x)
  | 2 => ((g.WIDTH : Int) - x - 1, (g.HEIGHT : Int) - y - 1)
  | 3 => (y, (g.HEIGHT : Int) - x - 1)
  | _ => (x, y)

/-- The framebuffer byte index `x + (y / 8) * WIDTH` computed by
drawPixel and getPixel on the rotated coordinate (taken to Nat: the
in-bounds check guarantees nonnegativity, see transform_bounds). -/
def pixelIndex (g : Geometry) (r : Fin 4) (x y : Int) : Nat :=
  (transform g r x y).1.toNat + ((transform g r x y).2.toNat / 8) * g.WIDTH

/-- The bit position `y & 7` within the addressed byte, on the rotated
coordinate. -/
def pixelBit (g : Geometry) (r : Fin 4) (x y : Int) : Nat :=
  (transform g r x y).2.toNat % 8

/-- Size of the allocated framebuffer: `WIDTH * ((HEIGHT + 7) / 8)`
bytes, as malloc'ed by _init and memset by clearDisplay. -/
def bufSize (g : Geometry) : Nat :=
  g.WIDTH * ((g.HEIGHT + 7) / 8)

/-- Adafruit_MonoOLED::drawPixel.  Checks bounds against the rotated
logical width()/height(); on success rotates the coordinate, then
switches on the color: MONOOLED_WHITE ORs in the bit mask,
MONOOLED_BLACK ANDs with its 8-bit complement, MONOOLED_INVERSE XORs;
any other color value falls through the switch and leaves the buffer
untouched. -/
def drawPixel (g : Geometry) (r : Fin 4) (buf : Buffer) (x y : Int)
    (color : Nat) : Buffer :=
  if 0 ≤ x ∧ x < width g r ∧ 0 ≤ y ∧ y < height g r then
    let i := pixelIndex g r x y
    let m := 1 <<< pixelBit g r x y
    if color = MONOOLED_WHITE then Function.update buf i (buf i ||| m)
    else if color = MONOOLED_BLACK then
      Function.update buf i (buf i &&& (255 ^^^ m))
    else if color = MONOOLED_INVERSE then
      Function.update buf i (buf i ^^^ m)
    else buf
  else buf

/-- Adafruit_MonoOLED::getPixel.  Same bounds check and rotation as
drawPixel; returns the C boolean conversion of
`buffer[x + (y/8)*WIDTH] & (1 << (y & 7))` and false out of bounds. -/
def getPixel (g : Geometry) (r : Fin 4) (buf : Buffer) (x y : Int) :
    Bool :=
  if 0 ≤ x ∧ x < width g r ∧ 0 ≤ y ∧ y < height g r then
    decide (buf (pixelIndex g r x y) &&& (1 <<< pixelBit g r x y) ≠ 0)
  else false

/-- Adafruit_MonoOLED::clearDisplay: memset of the first
`WIDTH * ((HEIGHT + 7) / 8)` bytes of the buffer to zero. -/
def clearDisplay (g : Geometry) (buf : Buffer) : Buffer :=
  fun i => if i < bufSize g then 0 else buf i

/-- The coordinate transform as the claim/spec words it: rotation 0
identity; rotation 1 swap(x,y) then x = W - x - 1; rotation 2
x = W - x - 1 and y = H - y - 1; rotation 3 swap(x,y) then
y = H - y - 1. -/
def claimTransform (g : Geometry) (r : Fin 4) (x y : Int) : Int × Int :=
  match r.val with
  | 0 => (x, y)
  | 1 =>
    let xs := y
    let ys := x
    ((g.WIDTH : Int) - xs - 1, ys)
  | 2 => ((g.WIDTH : Int) - x - 1, (g.HEIGHT : Int) - y - 1)
  | _ =>
    let xs := y
    let ys := x
    (xs, (g.HEIGHT : Int) - ys - 1)

/-- Byte index of the storage cell the claim says is updated. -/
def claimIndex (g : Geometry) (r : Fin 4) (x y : Int) : Nat :=
  (claimTransform g r x y).1.toNat +
    ((claimTransform g r x y).2.toNat / 8) * g.WIDTH

/-- Bit position of the storage bit the claim says is updated. -/
def claimBit (g : Geometry) (r : Fin 4) (x y : Int) : Nat :=
  (claimTransform g r x y).2.toNat % 8

-- Bring-up (_init) model ---------------------------------------------------

/-- Logic level written by digitalWrite. -/
inductive PinLevel
  | low
  | high
deriving DecidableEq, Repr

/-- Observable side effects of _init on the GPIO/timing collaborators. -/
inductive Event
  | pinModeOut (pin : Int)
  | digitalWrite (pin : Int) (level : PinLevel)
  | delayMs (ms : Nat)
deriving DecidableEq, Repr

/-- Possible results of the C++ function `bool _init(...)`.  `ok b`
models `return b`; `indeterminate` models the bare `return;` statement
(no value) that appears on the SPI-open-failure path, which in a
bool-returning function yields no defined boolean value. -/
inductive InitRet
  | ok (b : Bool)
  | indeterminate
deriving DecidableEq, Repr

/-- The GPIO/delay sequence issued by the reset block of _init:
pinMode(rstPin, OUTPUT); HIGH; delay(1); LOW; delay(10); HIGH;
delay(10). -/
def resetSeq (rstPin : Int) : List Event :=
  [Event.pinModeOut rstPin,
   Event.digitalWrite rstPin PinLevel.high, Event.delayMs 1,
   Event.digitalWrite rstPin PinLevel.low, Event.delayMs 10,
   Event.digitalWrite rstPin PinLevel.high, Event.delayMs 10]

/-- Adafruit_MonoOLED::_init, modelled as its return value plus the
trace of pin/delay events it emits.  Parameters stand for the
environment: `isI2C` is whether `_theWire` is non-null (the transport
discriminant), `openOk` the result of the transport device's begin()
(for SPI this folds in the spi_dev null check), `bufferAllocated`
whether `buffer` is already non-null, `mallocOk` whether the malloc
call would succeed.  The framebuffer effect of the clearDisplay() call
is modelled separately by `clearDisplay` and emits no pin events. -/
def _init (isI2C openOk bufferAllocated mallocOk : Bool)
    (dcPin rstPin : Int) (reset : Bool) : InitRet × List Event :=
  if !bufferAllocated && !mallocOk then (InitRet.ok false, [])
  else if isI2C then
    if !openOk then (InitRet.ok false, [])
    else
      (InitRet.ok true,
        if reset && decide (0 ≤ rstPin) then resetSeq rstPin else [])
  else
    if !openOk then (InitRet.indeterminate, [])
    else
      (InitRet.ok true,
        Event.pinModeOut dcPin ::
          (if reset && decide (0 ≤ rstPin) then resetSeq rstPin else []))

-- Command dispatch (oled_commandList) model --------------------------------

/-- Observable transport-level effects of command dispatch: an
addressed-bus (I2C) write of a data block with a prefix block, a
data/command pin write, or a serial (SPI) write of a byte block. -/
inductive BusEvent
  | i2cWrite (data : List Nat) (pfx : List Nat)
  | dcWrite (pin : Int) (level : PinLevel)
  | spiWrite (data : List Nat)
deriving DecidableEq, Repr

/-- Adafruit_MonoOLED::oled_commandList, modelled as its boolean result
plus the trace of transport events.  `c` is the n-byte command table;
`writeOk` is the result the addressed-bus transport's write call would
return.  On the I2C binding the whole table goes out as one write with
the single control byte 0x00 as prefix and failure is propagated; on
the SPI binding the D/C pin is driven low once, then each byte is
written individually, and the function returns true. -/
def oled_commandList (isI2C : Bool) (dcPin : Int) (writeOk : Bool)
    (c : List Nat) : Bool × List BusEvent :=
  if isI2C then
    if !writeOk then (false, [BusEvent.i2cWrite c [0]])
    else (true, [BusEvent.i2cWrite c [0]])
  else
    (true, BusEvent.dcWrite dcPin PinLevel.low ::
      c.map (fun b => BusEvent.spiWrite [b]))

-- Basic bridging lemmas ---------------------------------------------------

lemma claimTransform_eq_transform (g : Geometry) (r : Fin 4) (x y : Int) :
    claimTransform g r x y = transform g r x y := by
  fin_cases r <;> rfl

lemma claimIndex_eq (g : Geometry) (r : Fin 4) (x y : Int) :
    claimIndex g r x y = pixelIndex g r x y := by
  simp [claimIndex, pixelIndex, claimTransform_eq_transform]

lemma claimBit_eq (g : Geometry) (r : Fin 4) (x y : Int) :
    claimBit g r x y = pixelBit g r x y := by
  simp [claimBit, pixelBit, claimTransform_eq_transform]

/-- An in-bounds logical coordinate is carried by the rotation transform
into the physical rectangle [0, WIDTH) × [0, HEIGHT). -/
lemma transform_bounds (g : Geometry) (r : Fin 4) (x y : Int)
    (hx0 : 0 ≤ x) (hx : x < width g r) (hy0 : 0 ≤ y)
    (hy : y < height g r) :
    0 ≤ (transform g r x y).1 ∧ (transform g r x y).1 < (g.WIDTH : Int) ∧
      0 ≤ (transform g r x y).2 ∧ (transform g r x y).2 < (g.HEIGHT : Int) := by
  fin_cases r <;>
    simp only [transform, width, height] at * <;>
    simp at * <;> omega

/-- Arithmetic core of the in-range property: a physical coordinate
maps to an index inside the allocated buffer. -/
lemma rawIndex_lt (g : Geometry) {a b : Nat} (ha : a < g.WIDTH)
    (hb : b < g.HEIGHT) : a + (b / 8) * g.WIDTH < bufSize g := by
  have hq : b / 8 + 1 ≤ (g.HEIGHT + 7) / 8 := by omega
  calc a + (b / 8) * g.WIDTH < (b / 8 + 1) * g.WIDTH := by
        rw [Nat.add_mul, Nat.one_mul]; omega
    _ ≤ ((g.HEIGHT + 7) / 8) * g.WIDTH :=
        Nat.mul_le_mul_right _ hq
    _ = bufSize g := Nat.mul_comm _ _

/-- For an in-bounds coordinate, the index computed by drawPixel and
getPixel lies inside the allocated buffer. -/
lemma pixelIndex_lt (g : Geometry) (r : Fin 4) (x y : Int)
    (hx0 : 0 ≤ x) (hx : x < width g r) (hy0 : 0 ≤ y)
    (hy : y < height g r) : pixelIndex g r x y < bufSize g := by
  obtain ⟨h1, h2, h3, h4⟩ := transform_bounds g r x y hx0 hx hy0 hy
  exact rawIndex_lt g (by omega) (by omega)

-- Bit-level helper lemmas --------------------------------------------------

lemma shiftLeft_one_eq (b : Nat) : 1 <<< b = 2 ^ b := by
  simp [Nat.shiftLeft_eq]

lemma shiftLeft_one_ne_zero (b : Nat) : 1 <<< b ≠ 0 := by
  simp [Nat.shiftLeft_eq]

lemma testBit_shiftLeft_one (b j : Nat) :
    (1 <<< b).testBit j = decide (b = j) := by
  rw [shiftLeft_one_eq, Nat.testBit_two_pow]

lemma testBit_255 (j : Nat) : (255 : Nat).testBit j = decide (j < 8) := by
  have h : (255 : Nat) = 2 ^ 8 - 1 := by norm_num
  rw [h, Nat.testBit_two_pow_sub_one]

lemma testBit_of_lt_256 (a j : Nat) (h : a < 256) (hj : 8 ≤ j) :
    a.testBit j = false := by
  apply Nat.testBit_lt_two_pow
  calc a < 256 := h
    _ = 2 ^ 8 := by norm_num
    _ ≤ 2 ^ j := Nat.pow_le_pow_right (by norm_num) hj

lemma or_mask_and_mask (a m : Nat) : (a ||| m) &&& m = m := by
  apply Nat.eq_of_testBit_eq
  intro j
  simp only [Nat.testBit_and, Nat.testBit_or]
  cases m.testBit j <;> simp

lemma andc_mask_and_mask (a b : Nat) (hb : b < 8) :
    (a &&& (255 ^^^ (1 <<< b))) &&& (1 <<< b) = 0 := by
  apply Nat.eq_of_testBit_eq
  intro j
  simp only [Nat.testBit_and, Nat.testBit_xor, Nat.zero_testBit,
    testBit_shiftLeft_one, testBit_255]
  rcases eq_or_ne b j with rfl | hj
  · simp [hb]
  · simp [hj]

lemma drawPixel_white_eq (g : Geometry) (r : Fin 4) (buf : Buffer)
    (x y : Int) (h : 0 ≤ x ∧ x < width g r ∧ 0 ≤ y ∧ y < height g r) :
    drawPixel g r buf x y MONOOLED_WHITE =
      Function.update buf (pixelIndex g r x y)
        (buf (pixelIndex g r x y) ||| (1 <<< pixelBit g r x y)) := by
  simp only [drawPixel, if_pos h]
  norm_num [MONOOLED_WHITE, MONOOLED_BLACK, MONOOLED_INVERSE]

lemma drawPixel_black_eq (g : Geometry) (r : Fin 4) (buf : Buffer)
    (x y : Int) (h : 0 ≤ x ∧ x < width g r ∧ 0 ≤ y ∧ y < height g r) :
    drawPixel g r buf x y MONOOLED_BLACK =
      Function.update buf (pixelIndex g r x y)
        (buf (pixelIndex g r x y) &&& (255 ^^^ (1 <<< pixelBit g r x y))) := by
  simp only [drawPixel, if_pos h]
  norm_num [MONOOLED_WHITE, MONOOLED_BLACK, MONOOLED_INVERSE]

lemma drawPixel_inverse_eq (g : Geometry) (r : Fin 4) (buf : Buffer)
    (x y : Int) (h : 0 ≤ x ∧ x < width g r ∧ 0 ≤ y ∧ y < height g r) :
    drawPixel g r buf x y MONOOLED_INVERSE =
      Function.update buf (pixelIndex g r x y)
        (buf (pixelIndex g r x y) ^^^ (1 <<< pixelBit g r x y)) := by
  simp only [drawPixel, if_pos h]
  norm_num [MONOOLED_WHITE, MONOOLED_BLACK, MONOOLED_INVERSE]

-- Claim theorems -----------------------------------------------------------

/-- C4: for every coordinate, every rotation, and every starting
framebuffer state, two consecutive setPixel(x,y,INVERT) calls leave the
framebuffer equal to its original contents (INVERT is self-inverse). -/
theorem drawPixel_invert_involutive (g : Geometry) (r : Fin 4)
    (buf : Buffer) (x y : Int) :
    drawPixel g r (drawPixel g r buf x y MONOOLED_INVERSE) x y
      MONOOLED_INVERSE = buf := by
  by_cases h : 0 ≤ x ∧ x < width g r ∧ 0 ≤ y ∧ y < height g r
  · simp only [drawPixel, if_pos h, MONOOLED_WHITE, MONOOLED_BLACK,
      MONOOLED_INVERSE]
    norm_num
    exact Nat.xor_cancel_right _ _
  · simp only [drawPixel, if_neg h]

/-- C5: for every coordinate outside the rotated logical bounds, every
rotation and every color, getPixel returns false and setPixel leaves
every byte of the framebuffer unchanged. -/
theorem outOfBounds_noop (g : Geometry) (r : Fin 4) (buf : Buffer)
    (x y : Int)
    (h : x < 0 ∨ width g r ≤ x ∨ y < 0 ∨ height g r ≤ y) :
    getPixel g r buf x y = false ∧
      ∀ color, drawPixel g r buf x y color = buf := by
  have h' : ¬(0 ≤ x ∧ x < width g r ∧ 0 ≤ y ∧ y < height g r) := by omega
  exact ⟨by simp [getPixel, h'], fun color => by simp [drawPixel, h']⟩

/-- Witness for outOfBounds_noop at x = -3 on a 128×64 surface. -/
theorem outOfBounds_noop_witness :
    getPixel ⟨128, 64⟩ 0 (fun _ => 0) (-3) 2 = false ∧
      drawPixel ⟨128, 64⟩ 0 (fun _ => 0) (-3) 2 MONOOLED_WHITE =
        (fun _ => 0) :=
  ⟨(outOfBounds_noop ⟨128, 64⟩ 0 (fun _ => 0) (-3) 2 (by decide)).1,
   (outOfBounds_noop ⟨128, 64⟩ 0 (fun _ => 0) (-3) 2 (by decide)).2
     MONOOLED_WHITE⟩

/-- C10: for every in-bounds coordinate and rotation, setPixel with any
color other than MONOOLED_WHITE, MONOOLED_BLACK, MONOOLED_INVERSE
leaves the entire framebuffer unchanged (the color switch has no
default branch). -/
theorem drawPixel_unknown_color_noop (g : Geometry) (r : Fin 4)
    (buf : Buffer) (x y : Int) (c : Nat)
    (hw : c ≠ MONOOLED_WHITE) (hb : c ≠ MONOOLED_BLACK)
    (hi2 : c ≠ MONOOLED_INVERSE) :
    drawPixel g r buf x y c = buf := by
  by_cases h : 0 ≤ x ∧ x < width g r ∧ 0 ≤ y ∧ y < height g r
  · simp [drawPixel, h, hw, hb, hi2]
  · simp [drawPixel, h]

/-- Witness for drawPixel_unknown_color_noop with color 7 at an
in-bounds coordinate. -/
theorem drawPixel_unknown_color_noop_witness :
    drawPixel ⟨128, 64⟩ 0 (fun _ => 0) 3 4 7 = (fun _ => 0) :=
  drawPixel_unknown_color_noop ⟨128, 64⟩ 0 (fun _ => 0) 3 4 7
    (by decide) (by decide) (by decide)

/-- C1: evidence for the defect on the serial (SPI) bring-up path: when
the transport device's open routine fails, _init executes a plain
`return;` carrying no boolean at all — in particular the result is not
the `false` return the spec requires. -/
theorem init_spi_open_fail_no_bool :
    _init false false true true 9 4 true = (InitRet.indeterminate, []) ∧
      ∀ b : Bool,
        (_init false false true true 9 4 true).1 ≠ InitRet.ok b := by
  decide

/-- C8: multi-command dispatch over the addressed bus sends all n bytes
in a single transport write with the one-byte 0x00 control prefix,
returns false exactly when that write fails, and always returns true on
the serial binding. -/
theorem commandList_single_write (dcPin : Int) (writeOk : Bool)
    (c : List Nat) :
    (oled_commandList true dcPin writeOk c).2 =
        [BusEvent.i2cWrite c [0]] ∧
      ((oled_commandList true dcPin writeOk c).1 = false ↔
        writeOk = false) ∧
      (oled_commandList false dcPin writeOk c).1 = true := by
  cases writeOk <;> simp [oled_commandList]

/-- C9: for every coordinate passing the rotated-bounds check, the
framebuffer index computed after the rotation transform lies inside the
allocated buffer of bufSize bytes. -/
theorem pixelIndex_in_range (g : Geometry) (r : Fin 4) (x y : Int)
    (hx0 : 0 ≤ x) (hx : x < width g r) (hy0 : 0 ≤ y)
    (hy : y < height g r) : pixelIndex g r x y < bufSize g :=
  pixelIndex_lt g r x y hx0 hx hy0 hy

/-- Witness for pixelIndex_in_range at (5,7) under rotation 1 on a
128×64 surface. -/
theorem pixelIndex_in_range_witness :
    pixelIndex ⟨128, 64⟩ 1 5 7 < bufSize ⟨128, 64⟩ :=
  pixelIndex_in_range ⟨128, 64⟩ 1 5 7 (by decide) (by decide)
    (by decide) (by decide)

/-- C3: for every in-bounds coordinate and rotation, setPixel(x,y,ON)
then getPixel(x,y) under the same rotation returns true, and
setPixel(x,y,OFF) then getPixel(x,y) returns false. -/
theorem drawPixel_getPixel_roundtrip (g : Geometry) (r : Fin 4)
    (buf : Buffer) (x y : Int)
    (hx0 : 0 ≤ x) (hx : x < width g r) (hy0 : 0 ≤ y)
    (hy : y < height g r) :
    getPixel g r (drawPixel g r buf x y MONOOLED_WHITE) x y = true ∧
      getPixel g r (drawPixel g r buf x y MONOOLED_BLACK) x y = false := by
  have h : 0 ≤ x ∧ x < width g r ∧ 0 ≤ y ∧ y < height g r :=
    ⟨hx0, hx, hy0, hy⟩
  have hb : pixelBit g r x y < 8 := by unfold pixelBit; omega
  constructor
  · rw [drawPixel_white_eq g r buf x y h]
    simp only [getPixel, if_pos h, Function.update_same]
    rw [or_mask_and_mask]
    simp [shiftLeft_one_ne_zero]
  · rw [drawPixel_black_eq g r buf x y h]
    simp only [getPixel, if_pos h, Function.update_same]
    rw [andc_mask_and_mask _ _ hb]
    simp

/-- Witness for drawPixel_getPixel_roundtrip at (10,20) under
rotation 3 on a 128×64 surface. -/
theorem drawPixel_getPixel_roundtrip_witness :
    getPixel ⟨128, 64⟩ 3
        (drawPixel ⟨128, 64⟩ 3 (fun _ => 0) 10 20 MONOOLED_WHITE)
        10 20 = true ∧
      getPixel ⟨128, 64⟩ 3
        (drawPixel ⟨128, 64⟩ 3 (fun _ => 0) 10 20 MONOOLED_BLACK)
        10 20 = false :=
  drawPixel_getPixel_roundtrip ⟨128, 64⟩ 3 (fun _ => 0) 10 20
    (by decide) (by decide) (by decide) (by decide)

/-- C6: after clearDisplay every byte of the framebuffer is zero, and
getPixel returns false for every in-bounds coordinate under every
rotation. -/
theorem clearDisplay_all_off (g : Geometry) (buf : Buffer) :
    (∀ i, i < bufSize g → clearDisplay g buf i = 0) ∧
      ∀ (r : Fin 4) (x y : Int), 0 ≤ x → x < width g r → 0 ≤ y →
        y < height g r →
        getPixel g r (clearDisplay g buf) x y = false := by
  constructor
  · intro i hi
    simp [clearDisplay, hi]
  · intro r x y hx0 hx hy0 hy
    have h : 0 ≤ x ∧ x < width g r ∧ 0 ≤ y ∧ y < height g r :=
      ⟨hx0, hx, hy0, hy⟩
    have hi := pixelIndex_lt g r x y hx0 hx hy0 hy
    simp [getPixel, h, clearDisplay, hi]

/-- Witness for clearDisplay_all_off: byte 5 is zeroed and pixel (3,4)
reads false under rotation 2 on a 128×64 surface. -/
theorem clearDisplay_all_off_witness :
    clearDisplay ⟨128, 64⟩ (fun _ => 255) 5 = 0 ∧
      getPixel ⟨128, 64⟩ 2 (clearDisplay ⟨128, 64⟩ (fun _ => 255)) 3 4 =
        false :=
  ⟨(clearDisplay_all_off ⟨128, 64⟩ (fun _ => 255)).1 5 (by decide),
   (clearDisplay_all_off ⟨128, 64⟩ (fun _ => 255)).2 2 3 4
     (by decide) (by decide) (by decide) (by decide)⟩

/-- C2: for every coordinate passing the bounds check and every
rotation, drawPixel updates exactly the storage bit (y' mod 8) of byte
x' + (y'/8)*WIDTH where (x',y') is the rotated coordinate as the claim
words it (claimTransform): all other bytes and all other bits of that
byte are unchanged, the bit is set by WHITE, cleared by BLACK and
toggled by INVERSE; and setting (0,0) under rotation 2 mutates the same
byte/bit as setting (W-1,H-1) under rotation 0. -/
theorem drawPixel_exact_update (g : Geometry) (r : Fin 4) (buf : Buffer)
    (x y : Int) (hbuf : ∀ i, buf i < 256)
    (hx0 : 0 ≤ x) (hx : x < width g r) (hy0 : 0 ≤ y)
    (hy : y < height g r) :
    (∀ c j, j ≠ claimIndex g r x y → drawPixel g r buf x y c j = buf j) ∧
      (∀ c, (c = MONOOLED_WHITE ∨ c = MONOOLED_BLACK ∨
          c = MONOOLED_INVERSE) →
        ∀ b, b ≠ claimBit g r x y →
          (drawPixel g r buf x y c (claimIndex g r x y)).testBit b =
            (buf (claimIndex g r x y)).testBit b) ∧
      (drawPixel g r buf x y MONOOLED_WHITE
          (claimIndex g r x y)).testBit (claimBit g r x y) = true ∧
      (drawPixel g r buf x y MONOOLED_BLACK
          (claimIndex g r x y)).testBit (claimBit g r x y) = false ∧
      (drawPixel g r buf x y MONOOLED_INVERSE
          (claimIndex g r x y)).testBit (claimBit g r x y) =
        !((buf (claimIndex g r x y)).testBit (claimBit g r x y)) ∧
      (1 ≤ g.WIDTH → 1 ≤ g.HEIGHT →
        drawPixel g 2 buf 0 0 MONOOLED_WHITE =
          drawPixel g 0 buf ((g.WIDTH : Int) - 1) ((g.HEIGHT : Int) - 1)
            MONOOLED_WHITE) := by
  have h : 0 ≤ x ∧ x < width g r ∧ 0 ≤ y ∧ y < height g r :=
    ⟨hx0, hx, hy0, hy⟩
  have hb8 : pixelBit g r x y < 8 := by unfold pixelBit; omega
  refine ⟨?_, ?_, ?_, ?_, ?_, ?_⟩
  · intro c j hj
    rw [claimIndex_eq] at hj
    simp only [drawPixel, if_pos h]
    split_ifs <;> first | rw [Function.update_noteq hj] | rfl
  · intro c hc b hb
    rw [claimIndex_eq]
    rw [claimBit_eq] at hb
    have hb' : pixelBit g r x y ≠ b := Ne.symm hb
    rcases hc with rfl | rfl | rfl
    · rw [drawPixel_white_eq g r buf x y h, Function.update_same]
      simp only [Nat.testBit_or, testBit_shiftLeft_one]
      simp [hb']
    · rw [drawPixel_black_eq g r buf x y h, Function.update_same]
      simp only [Nat.testBit_and, Nat.testBit_xor, testBit_255,
        testBit_shiftLeft_one]
      by_cases h8 : b < 8
      · simp [h8, hb']
      · simp [h8, hb', testBit_of_lt_256 _ b (hbuf _) (by omega)]
    · rw [drawPixel_inverse_eq g r buf x y h, Function.update_same]
      simp only [Nat.testBit_xor, testBit_shiftLeft_one]
      simp [hb']
  · rw [claimIndex_eq, claimBit_eq, drawPixel_white_eq g r buf x y h,
      Function.update_same]
    simp [Nat.testBit_or, testBit_shiftLeft_one]
  · rw [claimIndex_eq, claimBit_eq, drawPixel_black_eq g r buf x y h,
      Function.update_same]
    simp [Nat.testBit_and, Nat.testBit_xor, testBit_255,
      testBit_shiftLeft_one, hb8]
  · rw [claimIndex_eq, claimBit_eq, drawPixel_inverse_eq g r buf x y h,
      Function.update_same]
    simp [Nat.testBit_xor, testBit_shiftLeft_one]
  · intro hW hH
    have h2 : (0:Int) ≤ 0 ∧ (0:Int) < width g 2 ∧ (0:Int) ≤ 0 ∧
        (0:Int) < height g 2 := by
      simp only [width, height]
      norm_num
      omega
    have h0 : 0 ≤ (g.WIDTH : Int) - 1 ∧
        (g.WIDTH : Int) - 1 < width g 0 ∧ 0 ≤ (g.HEIGHT : Int) - 1 ∧
        (g.HEIGHT : Int) - 1 < height g 0 := by
      simp only [width, height]
      norm_num
      omega
    have et : transform g 2 0 0 =
        transform g 0 ((g.WIDTH : Int) - 1) ((g.HEIGHT : Int) - 1) := by
      simp only [transform]
      norm_num
    simp only [drawPixel, if_pos h2, if_pos h0, pixelIndex, pixelBit, et]

/-- Witness for drawPixel_exact_update at (2,3) under rotation 1 on a
128×64 surface with an all-zero buffer: bytes off the target cell are
untouched, the target bit is set by WHITE and toggled by INVERSE. -/
theorem drawPixel_exact_update_witness :
    drawPixel ⟨128, 64⟩ 1 (fun _ => 0) 2 3 MONOOLED_WHITE 7 =
        (fun _ => (0 : Nat)) 7 ∧
      (drawPixel ⟨128, 64⟩ 1 (fun _ => 0) 2 3 MONOOLED_WHITE
          (claimIndex ⟨128, 64⟩ 1 2 3)).testBit
        (claimBit ⟨128, 64⟩ 1 2 3) = true ∧
      (drawPixel ⟨128, 64⟩ 1 (fun _ => 0) 2 3 MONOOLED_INVERSE
          (claimIndex ⟨128, 64⟩ 1 2 3)).testBit
        (claimBit ⟨128, 64⟩ 1 2 3) =
        !(((fun _ => (0 : Nat)) (claimIndex ⟨128, 64⟩ 1 2 3)).testBit
          (claimBit ⟨128, 64⟩ 1 2 3)) := by
  have t := drawPixel_exact_update ⟨128, 64⟩ 1 (fun _ => 0) 2 3
    (fun i => by norm_num) (by decide) (by decide) (by decide) (by decide)
  exact ⟨t.1 MONOOLED_WHITE 7 (by decide), t.2.2.1, t.2.2.2.2.1⟩

/-- C7: with allocation and transport open succeeding, bring-up with
performReset and a non-negative reset pin emits exactly the pin trace
pinMode(OUTPUT), HIGH, delay 1ms, LOW, delay 10ms, HIGH, delay 10ms on
that pin (after the D/C pinMode on the serial binding) and returns
true; with performReset false or reset pin negative, no reset-pin
writes occur and bring-up still returns true. -/
theorem init_reset_sequence (isI2C openOk bufferAllocated mallocOk : Bool)
    (dcPin rstPin : Int) (reset : Bool)
    (halloc : bufferAllocated = true ∨ mallocOk = true)
    (hopen : openOk = true) :
    (reset = true → 0 ≤ rstPin →
      _init isI2C openOk bufferAllocated mallocOk dcPin rstPin reset =
        (InitRet.ok true,
          (if isI2C then [] else [Event.pinModeOut dcPin]) ++
            resetSeq rstPin)) ∧
      (reset = false ∨ rstPin < 0 →
        (∀ l, Event.digitalWrite rstPin l ∉
            (_init isI2C openOk bufferAllocated mallocOk dcPin rstPin
              reset).2) ∧
          (_init isI2C openOk bufferAllocated mallocOk dcPin rstPin
            reset).1 = InitRet.ok true) := by
  subst hopen
  have hball : (!bufferAllocated && !mallocOk) = false := by
    rcases halloc with h | h <;> subst h <;> simp
  constructor
  · intro hr hp
    subst hr
    have hp' : decide (0 ≤ rstPin) = true := by simpa using hp
    cases isI2C <;> simp [_init, hball, hp']
  · intro hcase
    have hc : (reset && decide (0 ≤ rstPin)) = false := by
      rcases hcase with hcf | hcf
      · subst hcf; simp
      · simp [decide_eq_false (not_le.mpr hcf)]
    cases isI2C <;> simp [_init, hball, hc]

/-- Witness for init_reset_sequence: I2C binding, allocation and open
succeed, reset requested on pin 4. -/
theorem init_reset_sequence_witness :
    _init true true true true 9 4 true = (InitRet.ok true, resetSeq 4) := by
  have t := (init_reset_sequence true true true true 9 4 true
    (Or.inl rfl) rfl).1 rfl (by norm_num)
  simpa using t

end MonoOLED
